import Mathlib

set_option maxRecDepth 100000

/-!
Verification development for the telemetry Event Log Store and Digest
Dispatcher implemented in `backend/server.js`.

The store keeps a JSON array of event records in a single file
(`tracking_data.json`).  `readTrackingData` reads and, on corruption,
backs up and salvages the file; `writeTrackingData` serialises writes
through a FIFO queue (`pendingWrites` / `isWriting` /
`processNextWrite`); the `/api/track/:eventType` handler appends one
record; `processEmailSending` renders and dispatches a digest email;
`/api/clear-tracking-data` resets the file.

JSON values are embedded with their source lexemes for numbers and
string bodies: no property proved here depends on numeric normalisation
or on string-escape decoding, and keeping lexemes makes the parser a
direct transcription of acceptance behaviour of `JSON.parse`.
-/

/-- JSON values as produced by `JSON.parse`.  `num` and `str` keep the
source lexeme (for `str`, the raw characters between the quotes). -/
inductive Json where
  | null
  | bool (b : Bool)
  | num (lexeme : String)
  | str (lexeme : String)
  | arr (elems : List Json)
  | obj (fields : List (String × Json))
deriving Repr

/-- The whitespace characters accepted by the JSON grammar (`JSON.parse`
skips exactly these four between tokens). -/
def isJsWs (c : Char) : Bool :=
  c = ' ' || c = '\t' || c = '\n' || c = '\r'

/-- The character set stripped by JavaScript `String.prototype.trim`:
ECMAScript WhiteSpace (tab, VT, FF, space, NBSP, ZWNBSP and the Unicode
space separators) together with the LineTerminators (LF, CR, LS, PS).
This models the emptiness gate on the file content. -/
def isTrimWs (c : Char) : Bool :=
  c = ' ' || c = '\t' || c = '\n' || c = '\r' || c = '\x0B' || c = '\x0C'
  || c = '\u00A0' || c = '\u1680' || c = '\u2000' || c = '\u2001' || c = '\u2002'
  || c = '\u2003' || c = '\u2004' || c = '\u2005' || c = '\u2006' || c = '\u2007'
  || c = '\u2008' || c = '\u2009' || c = '\u200A' || c = '\u2028' || c = '\u2029'
  || c = '\u202F' || c = '\u205F' || c = '\u3000' || c = '\uFEFF'

/-- Drop leading JSON whitespace. -/
def skipWs : List Char → List Char
  | [] => []
  | c :: cs => if isJsWs c then skipWs cs else c :: cs

def isHexDigitChar (c : Char) : Bool :=
  c.isDigit || ('a' ≤ c && c ≤ 'f') || ('A' ≤ c && c ≤ 'F')

/-- Scan the body of a JSON string literal (the opening quote already
consumed); returns the raw body characters and the rest of the input. -/
def scanStr : List Char → Option (List Char × List Char)
  | [] => none
  | '"' :: rest => some ([], rest)
  | '\\' :: 'u' :: h1 :: h2 :: h3 :: h4 :: rest =>
    if isHexDigitChar h1 && isHexDigitChar h2 && isHexDigitChar h3 && isHexDigitChar h4 then
      match scanStr rest with
      | some (s, r) => some ('\\' :: 'u' :: h1 :: h2 :: h3 :: h4 :: s, r)
      | none => none
    else none
  | '\\' :: c :: rest =>
    if c = '"' || c = '\\' || c = '/' || c = 'b' || c = 'f' || c = 'n' || c = 'r' || c = 't' then
      match scanStr rest with
      | some (s, r) => some ('\\' :: c :: s, r)
      | none => none
    else none
  | c :: rest =>
    if c.val < 32 then none
    else
      match scanStr rest with
      | some (s, r) => some (c :: s, r)
      | none => none

/-- Longest prefix of decimal digits. -/
def takeDigits : List Char → List Char × List Char
  | [] => ([], [])
  | c :: cs =>
    if c.isDigit then
      let (d, r) := takeDigits cs
      (c :: d, r)
    else ([], c :: cs)

/-- Optional fraction part `.digits` of a JSON number. -/
def scanFrac : List Char → Option (List Char × List Char)
  | '.' :: rest =>
    let (d, r) := takeDigits rest
    if d.isEmpty then none else some ('.' :: d, r)
  | cs => some ([], cs)

/-- Optional exponent part `e[+-]digits` of a JSON number. -/
def scanExp : List Char → Option (List Char × List Char)
  | c :: rest =>
    if c = 'e' || c = 'E' then
      let (sgn, rest2) :=
        match rest with
        | s :: r2 => if s = '+' || s = '-' then ([s], r2) else (([] : List Char), s :: r2)
        | [] => ([], [])
      let (d, r) := takeDigits rest2
      if d.isEmpty then none else some (c :: (sgn ++ d), r)
    else some ([], c :: rest)
  | [] => some ([], [])

/-- Scan a JSON number token (leading-zero rules of the JSON grammar). -/
def scanNum (cs : List Char) : Option (List Char × List Char) :=
  let (sgn, cs1) :=
    match cs with
    | '-' :: r => ((['-'] : List Char), r)
    | _ => ([], cs)
  match cs1 with
  | '0' :: r =>
    (match scanFrac r with
     | some (f, r2) =>
       match scanExp r2 with
       | some (e, r3) => some (sgn ++ '0' :: (f ++ e), r3)
       | none => none
     | none => none)
  | c :: r =>
    if c.isDigit then
      let (d, r1) := takeDigits r
      match scanFrac r1 with
      | some (f, r2) =>
        match scanExp r2 with
        | some (e, r3) => some (sgn ++ c :: (d ++ f ++ e), r3)
        | none => none
      | none => none
    else none
  | [] => none

mutual

/-- Recursive-descent JSON value reader, fuelled to make termination
structural.  `parseJson` supplies ample fuel. -/
def parseVal : Nat → List Char → Option (Json × List Char)
  | 0, _ => none
  | fuel + 1, cs =>
    match skipWs cs with
    | '{' :: rest =>
      (match skipWs rest with
       | '}' :: r => some (.obj [], r)
       | _ => parseFields fuel rest)
    | '[' :: rest =>
      (match skipWs rest with
       | ']' :: r => some (.arr [], r)
       | _ => parseElems fuel rest)
    | '"' :: rest =>
      (match scanStr rest with
       | some (s, r) => some (.str (String.mk s), r)
       | none => none)
    | 't' :: 'r' :: 'u' :: 'e' :: rest => some (.bool true, rest)
    | 'f' :: 'a' :: 'l' :: 's' :: 'e' :: rest => some (.bool false, rest)
    | 'n' :: 'u' :: 'l' :: 'l' :: rest => some (.null, rest)
    | other =>
      match scanNum other with
      | some (lex, r) => some (.num (String.mk lex), r)
      | none => none

/-- One-or-more comma-separated array elements, then `]`. -/
def parseElems : Nat → List Char → Option (Json × List Char)
  | 0, _ => none
  | fuel + 1, cs =>
    match parseVal fuel cs with
    | some (v, r) =>
      (match skipWs r with
       | ',' :: r2 =>
         (match parseElems fuel r2 with
          | some (Json.arr vs, r3) => some (Json.arr (v :: vs), r3)
          | _ => none)
       | ']' :: r2 => some (Json.arr [v], r2)
       | _ => none)
    | none => none

/-- One-or-more `"key": value` object members, then the closing brace. -/
def parseFields : Nat → List Char → Option (Json × List Char)
  | 0, _ => none
  | fuel + 1, cs =>
    match skipWs cs with
    | '"' :: rest =>
      (match scanStr rest with
       | some (k, r) =>
         (match skipWs r with
          | ':' :: r2 =>
            (match parseVal fuel r2 with
             | some (v, r3) =>
               (match skipWs r3 with
                | ',' :: r4 =>
                  (match parseFields fuel r4 with
                   | some (Json.obj fs, r5) => some (Json.obj ((String.mk k, v) :: fs), r5)
                   | _ => none)
                | '}' :: r4 => some (Json.obj [(String.mk k, v)], r4)
                | _ => none)
             | none => none)
          | _ => none)
       | none => none)
    | _ => none

end

/-- `JSON.parse`: a single JSON value, optionally surrounded by
whitespace, spanning the whole input. -/
def parseJson (s : String) : Option Json :=
  match parseVal (4 * (s.toList.length + 1)) s.toList with
  | some (v, rest) => if (skipWs rest).isEmpty then some v else none
  | none => none

def indentStr (n : Nat) : String := String.mk (List.replicate n ' ')

mutual

/-- `JSON.stringify(v, null, 2)` at a given indentation depth. -/
def stringifyAt : Nat → Json → String
  | _, .null => "null"
  | _, .bool true => "true"
  | _, .bool false => "false"
  | _, .num lex => lex
  | _, .str lex => "\"" ++ lex ++ "\""
  | _, .arr [] => "[]"
  | ind, .arr (v :: vs) =>
    "[\n" ++ stringifyItems (ind + 2) (v :: vs) ++ "\n" ++ indentStr ind ++ "]"
  | _, .obj [] => "\x7b\x7d"
  | ind, .obj (f :: fs) =>
    "\x7b\n" ++ stringifyFields (ind + 2) (f :: fs) ++ "\n" ++ indentStr ind ++ "\x7d"

def stringifyItems : Nat → List Json → String
  | _, [] => ""
  | ind, [v] => indentStr ind ++ stringifyAt ind v
  | ind, v :: vs => indentStr ind ++ stringifyAt ind v ++ ",\n" ++ stringifyItems ind vs

def stringifyFields : Nat → List (String × Json) → String
  | _, [] => ""
  | ind, [(k, v)] => indentStr ind ++ "\"" ++ k ++ "\": " ++ stringifyAt ind v
  | ind, (k, v) :: fs =>
    indentStr ind ++ "\"" ++ k ++ "\": " ++ stringifyAt ind v ++ ",\n" ++ stringifyFields ind fs

end

/-- `JSON.stringify(v, null, 2)`. -/
def stringify2 (v : Json) : String := stringifyAt 0 v

/-! ## Event Log Store: `readTrackingData` and corruption recovery -/

/-- `data.startsWith('[')`. -/
def startsWithLB : List Char → Bool
  | '[' :: _ => true
  | _ => false

/-- Does the list start with a closing bracket? -/
def startsWithRB : List Char → Bool
  | ']' :: _ => true
  | _ => false

/-- Helper for `lastBB`: index of the last occurrence of the two-character
sequence closing-brace + closing-bracket, scanning with a running index. -/
def lastBBAux : List Char → Nat → Option Nat → Option Nat
  | [], _, acc => acc
  | c :: rest, i, acc =>
    lastBBAux rest (i + 1) (if c = '}' && startsWithRB rest then some i else acc)

/-- `data.lastIndexOf('}]')` (`none` when absent; `data.includes('}]')`
is its `isSome`). -/
def lastBB (cs : List Char) : Option Nat := lastBBAux cs 0 none

/-- The segment matched by `.` in a JavaScript regex without the `s`
flag: scan to the nearest closing brace, failing on a line terminator
first (U+2028/U+2029 are ignored; no claim exercises them). -/
def dotTake : List Char → Option (List Char × List Char)
  | [] => none
  | '}' :: r => some ([], r)
  | '\n' :: _ => none
  | '\r' :: _ => none
  | c :: r =>
    match dotTake r with
    | some (m, rest) => some (c :: m, rest)
    | none => none

/-- All matches of the global non-greedy pattern used by the salvage
step (`data.match` with the brace-matching regex): leftmost-first,
shortest match from each opening brace, resuming after each match. -/
def matchBracesAux : Nat → List Char → List (List Char)
  | 0, _ => []
  | _ + 1, [] => []
  | fuel + 1, '{' :: rest =>
    (match dotTake rest with
     | some (m, rest2) => ('{' :: (m ++ ['}'])) :: matchBracesAux fuel rest2
     | none => matchBracesAux fuel rest)
  | fuel + 1, _ :: rest => matchBracesAux fuel rest

def matchBraces (cs : List Char) : List (List Char) :=
  matchBracesAux (cs.length + 1) cs

/-- `entry && typeof entry === 'object'`: `null` is falsy; objects and
arrays have type `'object'`. -/
def jsObjectish : Json → Bool
  | .obj _ => true
  | .arr _ => true
  | _ => false

/-- Record-level salvage: parse each brace-matched substring, keeping
those that parse to an object type. -/
def recoverFallback (cs : List Char) : List Json :=
  (matchBraces cs).foldr
    (fun m acc =>
      match parseJson (String.mk m) with
      | some v => if jsObjectish v then v :: acc else acc
      | none => acc) []

/-- The recovery attempt of `readTrackingData`: only when the content
starts with an opening bracket and contains the brace-bracket pair does
it try the structural prefix (up to the last such pair), falling back to
record-level salvage if that prefix does not parse. -/
def recoverValue (data : String) : List Json :=
  if startsWithLB data.toList && (lastBB data.toList).isSome then
    match parseJson (String.mk (data.toList.take ((lastBB data.toList).getD 0 + 2))) with
    | some (Json.arr l) => l
    | some _ => []
    | none => recoverFallback data.toList
  else []

/-- Outcome of one `readTrackingData` call: the value returned to the
caller, whether the corrupt file was copied aside, and the content (if
any) written back to the main file. -/
structure ReadResult where
  value : Json
  backedUp : Bool
  written : Option String
deriving Repr

/-- `readTrackingData`: `none` models an absent file, `some data` a file
with content `data`. -/
def readTrackingData : Option String → ReadResult
  | none => ⟨.arr [], false, some "[]"⟩
  | some data =>
    if data.toList.all isTrimWs then ⟨.arr [], false, none⟩
    else
      match parseJson data with
      | some v => ⟨v, false, none⟩
      | none =>
        match recoverValue data with
        | [] => ⟨.arr [], true, some "[]"⟩
        | l => ⟨.arr l, true, some (stringify2 (.arr l))⟩

/-! ## `writeTrackingData`, clear, and the track endpoint -/

/-- The queued write body: coerce non-arrays to the empty array, then
serialise pretty-printed.  Returns the content written to the file. -/
def writeTrackingData : Json → String
  | .arr l => stringify2 (.arr l)
  | _ => stringify2 (.arr [])

/-- The `/api/clear-tracking-data` handler body: write the empty array. -/
def clearTrackingFile : String := writeTrackingData (.arr [])

/-- Last lookup wins, as for property access on an object built by
`JSON.parse` (later duplicate keys overwrite earlier ones). -/
def jsGet (fields : List (String × Json)) (k : String) : Option Json :=
  fields.foldl (fun acc p => if p.1 = k then some p.2 else acc) none

/-- Is a valid JSON number lexeme zero-valued (all mantissa digits 0)? -/
def numLexZero (lex : String) : Bool :=
  (lex.toList.takeWhile (fun c => c != 'e' && c != 'E')).all
    (fun c => c = '0' || c = '-' || c = '.')

/-- JavaScript truthiness of a parsed JSON value. -/
def jsTruthy : Json → Bool
  | .null => false
  | .bool b => b
  | .str s => !s.isEmpty
  | .num lex => !numLexZero lex
  | .arr _ => true
  | .obj _ => true

/-- `data || fallback-empty-object` with `none` as `undefined`. -/
def jsOrEmptyObj : Option Json → Json
  | some v => if jsTruthy v then v else .obj []
  | none => .obj []

/-- `a || b` on optional strings (the empty string is falsy). -/
def jsOrStr : Option String → Option String → Option String
  | some s, b => if s.isEmpty then b else some s
  | none, b => b

/-- The record pushed by the track handler.  Fields whose value is
`undefined` (absent user-agent header, no resolvable address) are
omitted, as `JSON.stringify` drops them from the stored file. -/
def buildTrackRecord (eventType timestamp : String)
    (userAgent ipHeader remoteAddr : Option String) (payload : Option Json) : Json :=
  .obj ([("type", Json.str eventType), ("timestamp", Json.str timestamp)]
    ++ (match userAgent with
        | some u => [("userAgent", Json.str u)]
        | none => [])
    ++ (match jsOrStr ipHeader remoteAddr with
        | some i => [("ip", Json.str i)]
        | none => [])
    ++ [("data", jsOrEmptyObj payload)])

/-- The `/api/track/:eventType` handler body: read the current array,
push one record, write the full result.  Returns the content handed to
the write queue, or `none` when the read produced a non-array (the push
would throw and the handler answers 500 without writing). -/
def trackEvent (file : Option String) (eventType timestamp : String)
    (userAgent ipHeader remoteAddr : Option String) (payload : Option Json) : Option String :=
  match (readTrackingData file).value with
  | .arr l =>
    some (writeTrackingData
      (.arr (l ++ [buildTrackRecord eventType timestamp userAgent ipHeader remoteAddr payload])))
  | _ => none

/-! ## Digest Dispatcher: `processEmailSending` -/

/-- Truthiness of an environment variable: absent or empty is falsy. -/
def presentStr : Option String → Bool
  | some s => !s.isEmpty
  | none => false

structure EmailConfig where
  user : Option String
  pass : Option String
  recipient : Option String

/-- The plain-object results returned by `processEmailSending` (absent
properties are `none`). -/
structure JsResult where
  success : Bool
  message : Option String
  eventsCount : Option Nat
  messageId : Option String
deriving Repr

/-- `trackingData.length === 0`: arrays and strings have a length;
other values compare `undefined === 0`, which is false. -/
def jsLenZero : Json → Bool
  | .arr l => l.isEmpty
  | .str s => s.isEmpty
  | _ => false

mutual

/-- Property-key string coercion of a JSON value (`String(v)` as used
when `v` indexes an object).  Arrays join their elements with commas
(null elements contribute the empty string).  Numbers are kept as their
source lexeme, which coincides with the canonical JavaScript rendering
for the plain integer and string types tracked records carry; records
whose `type` is a number (or an array containing one) fall outside
`keyFaithful` below and outside every theorem's hypotheses. -/
def jsToKeyStr : Json → String
  | .null => "null"
  | .bool true => "true"
  | .bool false => "false"
  | .num lex => lex
  | .str s => s
  | .arr l => jsArrJoin l
  | .obj _ => "[object Object]"

def jsArrJoin : List Json → String
  | [] => ""
  | [v] => jsArrElem v
  | v :: vs => jsArrElem v ++ "," ++ jsArrJoin vs

def jsArrElem : Json → String
  | .null => ""
  | .bool true => "true"
  | .bool false => "false"
  | .num lex => lex
  | .str s => s
  | .arr l => jsArrJoin l
  | .obj _ => "[object Object]"

end

/-- `event.type` as a property key: reading `.type` on `null` throws a
`TypeError` (`none`); on objects it is the member (`undefined`, hence
the key "undefined", when missing); on every other value it is
`undefined`, which also keys as "undefined". -/
def typeKeyOf : Json → Option String
  | .null => none
  | .obj fields =>
    some (match jsGet fields "type" with
      | some v => jsToKeyStr v
      | none => "undefined")
  | _ => some "undefined"

/-- One `eventTypes[event.type] = (eventTypes[event.type] || 0) + 1`
step on an insertion-ordered association list. -/
def bump : List (String × Nat) → String → List (String × Nat)
  | [], k => [(k, 1)]
  | (k0, n) :: rest, k =>
    if k0 = k then (k0, n + 1) :: rest else (k0, n) :: bump rest k

/-- The `forEach` loop building the per-type counts; `none` when a null
record makes the property read throw. -/
def countTypesRun : List Json → List (String × Nat) → Option (List (String × Nat))
  | [], m => some m
  | r :: rest, m =>
    match typeKeyOf r with
    | some k => countTypesRun rest (bump m k)
    | none => none

/-- The per-type occurrence counts of the report (`none`: the loop threw
on a null record). -/
def countTypes (records : List Json) : Option (List (String × Nat)) :=
  countTypesRun records []

/-- The rendered report: reason, requester, total, per-type counts, the
last-10 preview (`slice(-10)`), and the full array attached. -/
structure Report where
  reason : String
  requester : String
  totalCount : Nat
  typeCounts : List (String × Nat)
  preview : List Json
  attachment : List Json
deriving Repr

/-- Everything observable about one `processEmailSending` call: the
returned result (or thrown error), how often the transporter was
verified and `sendMail` invoked, whether the tracking file was copied to
a timestamped backup, any content written to the tracking file (only
read-time recovery writes it), and the rendered report. -/
structure DispatchEffects where
  result : Except String JsResult
  verifyCalls : Nat
  sendCalls : Nat
  logBackedUp : Bool
  logWritten : Option String
  report : Option Report
deriving Repr

/-- `processEmailSending(userEmail, reason)`.  `verifyOk` and `sendOk`
model the outcomes of the transporter verification and of
`transporter.sendMail`; `file` is the tracking file. -/
def processEmailSending (cfg : EmailConfig) (file : Option String)
    (userEmail reason : String) (verifyOk sendOk : Bool) (messageId : String) :
    DispatchEffects :=
  if !(presentStr cfg.user && presentStr cfg.pass && presentStr cfg.recipient) then
    ⟨.ok ⟨false, some "Email configuration is incomplete. Check server logs for details.",
      none, none⟩, 0, 0, false, none, none⟩
  else
    let r := readTrackingData file
    if jsLenZero r.value then
      ⟨.ok ⟨true, some "No tracking data to send", none, none⟩, 0, 0, false, r.written, none⟩
    else
      match r.value with
      | .arr td =>
        (match countTypes td with
         | none =>
           ⟨.error "TypeError: Cannot read properties of null (reading type)", 0, 0, false,
             r.written, none⟩
         | some counts =>
           let rep : Report :=
             ⟨reason, userEmail, td.length, counts, td.drop (td.length - 10), td⟩
           if !verifyOk then
             ⟨.error "Email transporter verification failed", 1, 0, false, r.written, some rep⟩
           else if !sendOk then
             ⟨.error "sendMail failed", 1, 1, false, r.written, some rep⟩
           else
             ⟨.ok ⟨true, none, some td.length, some messageId⟩, 1, 1, true, r.written, some rep⟩)
      | _ =>
        ⟨.error "TypeError: trackingData.forEach is not a function", 0, 0, false,
          r.written, none⟩

/-! ## The write queue under concurrent appends

A small-step, executable model of the append flow: each append task
reads the file (one suspension point), then pushes its record and hands
the full array to `writeTrackingData`, which appends the closure to
`pendingWrites` and triggers `processNextWrite`.  The drain loop starts
a physical write only when `isWriting` is false and completes writes one
at a time, in queue order. -/

namespace WriteQueue

structure AppendTask where
  record : Json
  snap : Option (List Json)
  enqueued : Bool

/-- The module-level mutable state of the store, plus a completion log:
each pending/in-flight write carries its enqueue sequence number, and
`completed` lists sequence numbers in completion order. -/
structure QueueState where
  file : List Json
  pending : List (Nat × List Json)
  inFlight : List (Nat × List Json)
  isWriting : Bool
  nextId : Nat
  completed : List Nat

structure TrackSys where
  q : QueueState
  tasks : Nat → Option AppendTask

/-- The atomic steps separated by `await` boundaries: a task's read of
the file, its enqueue of the full new array, the drain loop starting the
head write (guarded by `isWriting`), and a physical write completing. -/
inductive Act where
  | read (i : Nat)
  | enq (i : Nat)
  | wstart
  | wend

def applyAct : Act → TrackSys → Option TrackSys
  | .read i, s =>
    match s.tasks i with
    | some t =>
      if t.snap.isNone && !t.enqueued then
        some { s with
          tasks := Function.update s.tasks i (some { t with snap := some s.q.file }) }
      else none
    | none => none
  | .enq i, s =>
    match s.tasks i with
    | some t =>
      (match t.snap with
       | some snap =>
         if !t.enqueued then
           some { s with
             tasks := Function.update s.tasks i (some { t with enqueued := true }),
             q := { s.q with
               pending := s.q.pending ++ [(s.q.nextId, snap ++ [t.record])],
               nextId := s.q.nextId + 1 } }
         else none
       | none => none)
    | none => none
  | .wstart, s =>
    if s.q.isWriting then none
    else
      match s.q.pending with
      | [] => none
      | w :: rest =>
        some { s with q := { s.q with
          isWriting := true, pending := rest, inFlight := s.q.inFlight ++ [w] } }
  | .wend, s =>
    match s.q.inFlight with
    | [] => none
    | (wid, contents) :: rest =>
      some { s with q := { s.q with
        file := contents, inFlight := rest, isWriting := false,
        completed := s.q.completed ++ [wid] } }

/-- Run a schedule of atomic steps; `none` when a step is not enabled. -/
def run : List Act → TrackSys → Option TrackSys
  | [], s => some s
  | a :: acts, s =>
    match applyAct a s with
    | some s2 => run acts s2
    | none => none

/-- `N` append tasks over an initially empty, consistent log, with the
queue idle. -/
def initSys (records : List Json) : TrackSys :=
  ⟨⟨[], [], [], false, 0, []⟩, fun i => (records.get? i).map (fun r => ⟨r, none, false⟩)⟩

/-- The inductive invariant of the queue: the guard flag tracks whether
a write is in flight, at most one write is ever in flight, and the
enqueue numbers split, in order, into completed, in-flight and pending. -/
def Inv (s : TrackSys) : Prop :=
  (s.q.isWriting = false ↔ s.q.inFlight = [])
  ∧ s.q.inFlight.length ≤ 1
  ∧ s.q.completed ++ s.q.inFlight.map Prod.fst ++ s.q.pending.map Prod.fst
      = List.range s.q.nextId

/-- A fully sequential schedule: each append's read happens only after
the previous append's write has settled. -/
def seqBlock (i : Nat) : List Act := [.read i, .enq i, .wstart, .wend]

def seqActsFrom : Nat → Nat → List Act
  | _, 0 => []
  | k, n + 1 => seqBlock k ++ seqActsFrom (k + 1) n

def seqActs (n : Nat) : List Act := seqActsFrom 0 n

end WriteQueue

/-! ## Helper lemmas -/

/-- A trim-whitespace character that is not JSON whitespace is one of
the exotic ECMAScript whitespace characters. -/
lemma trimWs_char_cases {c : Char} (htw : isTrimWs c = true) (hjw : isJsWs c = false) :
    c = '\x0B' ∨ c = '\x0C' ∨ c = '\u00A0' ∨ c = '\u1680'
    ∨ c = '\u2000' ∨ c = '\u2001' ∨ c = '\u2002' ∨ c = '\u2003' ∨ c = '\u2004'
    ∨ c = '\u2005' ∨ c = '\u2006' ∨ c = '\u2007' ∨ c = '\u2008' ∨ c = '\u2009'
    ∨ c = '\u200A' ∨ c = '\u2028' ∨ c = '\u2029' ∨ c = '\u202F' ∨ c = '\u205F'
    ∨ c = '\u3000' ∨ c = '\uFEFF' := by
  simp only [isTrimWs, Bool.or_eq_true, decide_eq_true_eq] at htw
  simp [isJsWs] at hjw
  tauto

set_option maxHeartbeats 1600000 in
/-- None of the exotic whitespace characters can start a JSON value, so
a read of input headed by one fails. -/
lemma parseVal_trim_head {c : Char} (rest : List Char) (fuel : Nat)
    (htw : isTrimWs c = true) (hjw : isJsWs c = false) :
    parseVal fuel (c :: rest) = none := by
  rcases trimWs_char_cases htw hjw with
    rfl|rfl|rfl|rfl|rfl|rfl|rfl|rfl|rfl|rfl|rfl|rfl|rfl|rfl|rfl|rfl|rfl|rfl|rfl|rfl|rfl <;>
    (cases fuel with
     | zero => rfl
     | succ n => rfl)

/-- Unfolding equation: one step of the value reader is determined by
the whitespace-stripped input. -/
lemma parseVal_succ (fuel : Nat) (cs : List Char) :
    parseVal (fuel + 1) cs
      = (match skipWs cs with
        | '{' :: rest =>
          (match skipWs rest with
           | '}' :: r => some (.obj [], r)
           | _ => parseFields fuel rest)
        | '[' :: rest =>
          (match skipWs rest with
           | ']' :: r => some (.arr [], r)
           | _ => parseElems fuel rest)
        | '"' :: rest =>
          (match scanStr rest with
           | some (s, r) => some (.str (String.mk s), r)
           | none => none)
        | 't' :: 'r' :: 'u' :: 'e' :: rest => some (.bool true, rest)
        | 'f' :: 'a' :: 'l' :: 's' :: 'e' :: rest => some (.bool false, rest)
        | 'n' :: 'u' :: 'l' :: 'l' :: rest => some (.null, rest)
        | other =>
          match scanNum other with
          | some (lex, r) => some (.num (String.mk lex), r)
          | none => none) := rfl

lemma parseVal_of_all_trim (fuel : Nat) :
    ∀ cs : List Char, cs.all isTrimWs = true → parseVal fuel cs = none := by
  cases fuel with
  | zero => intro cs _; rfl
  | succ n =>
    intro cs
    induction cs with
    | nil => intro _; rfl
    | cons c rest ih =>
      intro h
      simp only [List.all_cons, Bool.and_eq_true] at h
      by_cases hj : isJsWs c = true
      · have hskip : skipWs (c :: rest) = skipWs rest := by
          simp [skipWs, hj]
        have ih2 := ih h.2
        rw [parseVal_succ] at ih2 ⊢
        rw [hskip]
        exact ih2
      · have hj2 : isJsWs c = false := by
          revert hj; cases isJsWs c <;> simp
        exact parseVal_trim_head rest (n + 1) h.1 hj2

lemma parseJson_of_all_trim {s : String} (h : s.toList.all isTrimWs = true) :
    parseJson s = none := by
  unfold parseJson
  rw [parseVal_of_all_trim _ _ h]

/-- On a successfully parsing file, `readTrackingData` just returns the
parsed value and neither backs up nor rewrites anything. -/
lemma readTrackingData_parse {content : String} {v : Json}
    (h : parseJson content = some v) :
    readTrackingData (some content) = ⟨v, false, none⟩ := by
  have hws : content.toList.all isTrimWs = false := by
    cases hc : content.toList.all isTrimWs with
    | false => rfl
    | true => rw [parseJson_of_all_trim hc] at h; cases h
  have hrw : readTrackingData (some content)
      = if content.toList.all isTrimWs = true then ⟨.arr [], false, none⟩
        else
          match parseJson content with
          | some v => ⟨v, false, none⟩
          | none =>
            match recoverValue content with
            | [] => ⟨.arr [], true, some "[]"⟩
            | l => ⟨.arr l, true, some (stringify2 (.arr l))⟩ := rfl
  rw [hrw, hws]
  simp [h]

lemma lastBBAux_of_no_rb {cs : List Char} (h : ∀ c ∈ cs, ¬c = '}') :
    ∀ (i : Nat) (acc : Option Nat), lastBBAux cs i acc = acc := by
  induction cs with
  | nil => intro i acc; rfl
  | cons c rest ih =>
    intro i acc
    have hc : ¬c = '}' := h c (List.mem_cons_self c rest)
    have hrest : ∀ c ∈ rest, ¬c = '}' := fun x hx => h x (List.mem_cons_of_mem c hx)
    simp [lastBBAux, hc, ih hrest]

lemma lastBB_of_no_rb {cs : List Char} (h : ∀ c ∈ cs, ¬c = '}') : lastBB cs = none :=
  lastBBAux_of_no_rb h 0 none

lemma recoverValue_of_no_pair {data : String} (h : lastBB data.toList = none) :
    recoverValue data = [] := by
  unfold recoverValue
  rw [h]
  simp

/-- Unfolding equation for `readTrackingData` on a present file. -/
lemma readTrackingData_some (data : String) :
    readTrackingData (some data)
      = if data.toList.all isTrimWs = true then ⟨.arr [], false, none⟩
        else
          match parseJson data with
          | some v => ⟨v, false, none⟩
          | none =>
            match recoverValue data with
            | [] => ⟨.arr [], true, some "[]"⟩
            | l => ⟨.arr l, true, some (stringify2 (.arr l))⟩ := rfl

/-- Whatever `readTrackingData` writes back is the serialisation of an
array. -/
lemma read_written_arr {file : Option String} {c : String}
    (h : (readTrackingData file).written = some c) :
    ∃ l, c = stringify2 (Json.arr l) := by
  cases file with
  | none =>
    simp only [readTrackingData, Option.some.injEq] at h
    exact ⟨[], h.symm⟩
  | some data =>
    rw [readTrackingData_some] at h
    by_cases hws : data.toList.all isTrimWs = true
    · rw [if_pos hws] at h; cases h
    · rw [if_neg hws] at h
      cases hp : parseJson data with
      | some v => rw [hp] at h; cases h
      | none =>
        rw [hp] at h
        cases hrec : recoverValue data with
        | nil => rw [hrec] at h; exact ⟨[], (Option.some.inj h).symm⟩
        | cons x xs => rw [hrec] at h; exact ⟨x :: xs, (Option.some.inj h).symm⟩

/-! ## Claims about the store -/

/-- The corrupt content of the spec's simulated mid-write truncation:
a two-record array cut off inside the second record. -/
def c2content : String := "[\x7b\"a\":1\x7d,\x7b\"b\""

/-- Claim C2, counterexample: on the truncated content, `read()` does
back the file up, but it returns the empty array — not the one salvaged
record — and rewrites the log to the empty array, because the content
contains no closing-brace/closing-bracket pair and so the whole recovery
attempt (the record-level fallback included) is skipped. -/
theorem c2_counterexample :
    readTrackingData (some c2content) = ⟨Json.arr [], true, some "[]"⟩
    ∧ (readTrackingData (some c2content)).value
        ≠ Json.arr [Json.obj [("a", Json.num "1")]] := by
  constructor
  · rfl
  · have hv : (readTrackingData (some c2content)).value = Json.arr [] := rfl
    rw [hv]
    simp

/-- Claim C2 (amended): on the truncated input the store backs up the
original content, returns the empty array, and overwrites the log with
the empty array; the record-level brace-matching fallback runs only when
the content contains the closing-brace/closing-bracket pair (and starts
with an opening bracket), so content without that pair recovers
nothing. -/
theorem c2_theorem :
    readTrackingData (some c2content) = ⟨Json.arr [], true, some "[]"⟩
    ∧ ∀ data : String, lastBB data.toList = none → recoverValue data = [] :=
  ⟨rfl, fun _ h => recoverValue_of_no_pair h⟩

theorem c2_witness :
    readTrackingData (some c2content) = ⟨Json.arr [], true, some "[]"⟩
    ∧ recoverValue "xyz" = [] :=
  ⟨c2_theorem.1, c2_theorem.2 "xyz" rfl⟩

/-- Claim C3: every content the store writes to the log file — on
creation of an absent file, by an append, by the coercing `write`, by a
corruption-recovery rewrite, and by `clear` — is the serialisation of a
JSON array, and an empty or missing file is read as the empty array. -/
theorem c3_theorem :
    ∀ (file : Option String) (c : String) (v : Json) (eventType timestamp : String)
      (ua ipH remote : Option String) (payload : Option Json) (c2 : String),
      ((readTrackingData file).written = some c → ∃ l, c = stringify2 (Json.arr l))
      ∧ (∃ l, writeTrackingData v = stringify2 (Json.arr l))
      ∧ (trackEvent file eventType timestamp ua ipH remote payload = some c2 →
          ∃ l, c2 = stringify2 (Json.arr l))
      ∧ clearTrackingFile = stringify2 (Json.arr [])
      ∧ (readTrackingData none).value = Json.arr []
      ∧ (∀ s : String, s.toList.all isTrimWs = true →
          (readTrackingData (some s)).value = Json.arr []) := by
  intro file c v eventType timestamp ua ipH remote payload c2
  refine ⟨read_written_arr, ?_, ?_, rfl, rfl, ?_⟩
  · cases v <;> exact ⟨_, rfl⟩
  · intro h
    unfold trackEvent at h
    cases hv : (readTrackingData file).value with
    | arr l => rw [hv] at h; exact ⟨_, (Option.some.inj h).symm⟩
    | null => rw [hv] at h; cases h
    | bool b => rw [hv] at h; cases h
    | num lex => rw [hv] at h; cases h
    | str lex => rw [hv] at h; cases h
    | obj fs => rw [hv] at h; cases h
  · intro s hs
    rw [readTrackingData_some, if_pos hs]

theorem c3_witness :
    (∃ l, "[]" = stringify2 (Json.arr l))
    ∧ (∃ l, writeTrackingData Json.null = stringify2 (Json.arr l))
    ∧ (∃ l, writeTrackingData
          (Json.arr [buildTrackRecord "click" "t0" none none none none])
        = stringify2 (Json.arr l))
    ∧ clearTrackingFile = stringify2 (Json.arr [])
    ∧ (readTrackingData none).value = Json.arr []
    ∧ (readTrackingData (some " ")).value = Json.arr [] := by
  have h := c3_theorem none "[]" Json.null "click" "t0" none none none none
    (writeTrackingData (Json.arr [buildTrackRecord "click" "t0" none none none none]))
  exact ⟨h.1 rfl, h.2.1, h.2.2.1 rfl, h.2.2.2.1, h.2.2.2.2.1, h.2.2.2.2.2 " " rfl⟩

/-- Content with no brace characters at all (hence no brace-delimited
record substrings for the salvage step to consider). -/
def noBraces (s : String) : Bool :=
  s.toList.all (fun c => c != '{' && c != '}')

/-- Claim C8: on unparseable content that is not whitespace-only and
holds no brace-delimited substrings, `read()` returns the empty array,
backs the garbage up, and rewrites the main file to the empty array. -/
theorem c8_theorem (content : String) (h1 : parseJson content = none)
    (h2 : noBraces content = true) (h3 : content.toList.all isTrimWs = false) :
    readTrackingData (some content) = ⟨Json.arr [], true, some "[]"⟩ := by
  have hnrb : ∀ c ∈ content.toList, ¬c = '}' := by
    intro c hc
    have h2' := List.all_eq_true.mp h2 c hc
    simp only [Bool.and_eq_true, bne_iff_ne, ne_eq] at h2'
    exact h2'.2
  have hrec : recoverValue content = [] :=
    recoverValue_of_no_pair (lastBB_of_no_rb hnrb)
  rw [readTrackingData_some, h3]
  simp [h1, hrec]

theorem c8_witness : readTrackingData (some "hello") = ⟨Json.arr [], true, some "[]"⟩ :=
  c8_theorem "hello" rfl rfl rfl

/-- Claim C9: `read()` on an absent file creates it containing the empty
array and returns the empty array; on an empty or whitespace-only file
it returns the empty array without touching the file. -/
theorem c9_theorem :
    readTrackingData none = ⟨Json.arr [], false, some "[]"⟩
    ∧ ∀ s : String, s.toList.all isTrimWs = true →
        readTrackingData (some s) = ⟨Json.arr [], false, none⟩ := by
  refine ⟨rfl, fun s h => ?_⟩
  rw [readTrackingData_some, if_pos h]

theorem c9_witness :
    readTrackingData none = ⟨Json.arr [], false, some "[]"⟩
    ∧ readTrackingData (some " \n\t") = ⟨Json.arr [], false, none⟩ :=
  ⟨c9_theorem.1, c9_theorem.2 " \n\t" rfl⟩

/-- Claim C10: a tracked record stores, besides type, timestamp and
data, the request's user-agent header and the resolved remote address;
an absent or null payload is stored as the empty object. -/
theorem c10_theorem (content : String) (l : List Json)
    (eventType timestamp ua : String) (ipH remote : Option String) (i : String)
    (payload : Option Json)
    (hparse : parseJson content = some (Json.arr l))
    (hip : jsOrStr ipH remote = some i) :
    trackEvent (some content) eventType timestamp (some ua) ipH remote payload
      = some (writeTrackingData (Json.arr (l ++
          [buildTrackRecord eventType timestamp (some ua) ipH remote payload])))
    ∧ buildTrackRecord eventType timestamp (some ua) ipH remote payload
      = Json.obj [("type", Json.str eventType), ("timestamp", Json.str timestamp),
          ("userAgent", Json.str ua), ("ip", Json.str i),
          ("data", jsOrEmptyObj payload)]
    ∧ jsOrEmptyObj none = Json.obj []
    ∧ jsOrEmptyObj (some Json.null) = Json.obj [] := by
  refine ⟨?_, ?_, rfl, rfl⟩
  · unfold trackEvent
    rw [readTrackingData_parse hparse]
  · unfold buildTrackRecord
    rw [hip]
    rfl

theorem c10_witness :
    trackEvent (some "[]") "pageview" "2026-01-01" (some "UA1") none (some "10.0.0.1") none
      = some (writeTrackingData (Json.arr ([] ++
          [buildTrackRecord "pageview" "2026-01-01" (some "UA1") none (some "10.0.0.1") none])))
    ∧ buildTrackRecord "pageview" "2026-01-01" (some "UA1") none (some "10.0.0.1") none
      = Json.obj [("type", Json.str "pageview"), ("timestamp", Json.str "2026-01-01"),
          ("userAgent", Json.str "UA1"), ("ip", Json.str "10.0.0.1"),
          ("data", jsOrEmptyObj none)]
    ∧ jsOrEmptyObj none = Json.obj []
    ∧ jsOrEmptyObj (some Json.null) = Json.obj [] :=
  c10_theorem "[]" [] "pageview" "2026-01-01" "UA1" none (some "10.0.0.1") "10.0.0.1" none
    rfl rfl

/-! ## Claims about the dispatcher -/

/-- A complete mail configuration for concrete instantiations. -/
def fullCfg : EmailConfig := ⟨some "user@example.com", some "secret", some "ops@example.com"⟩

/-- Claim C5 (amended): when the log content is a well-formed non-empty
array (whose per-type counting completes — a null record instead throws
before anything is sent or copied), dispatch leaves the log file
untouched — on confirmed delivery it only copies the log to a
timestamped backup, and on delivery failure the error propagates with no
backup and no write; reading a corrupt or absent log can rewrite the
file through read-time recovery; only the separate clear operation
leaves the file containing the empty array. -/
theorem c5_theorem (cfg : EmailConfig) (content : String) (td : List Json)
    (counts : List (String × Nat)) (userEmail reason msgId : String)
    (hu : presentStr cfg.user = true) (hp : presentStr cfg.pass = true)
    (hr : presentStr cfg.recipient = true)
    (hparse : parseJson content = some (Json.arr td)) (hne : td ≠ [])
    (hcnt : countTypes td = some counts) :
    ((processEmailSending cfg (some content) userEmail reason true true msgId).logWritten = none
      ∧ (processEmailSending cfg (some content) userEmail reason true true msgId).logBackedUp
          = true
      ∧ (processEmailSending cfg (some content) userEmail reason true true msgId).result
          = .ok ⟨true, none, some td.length, some msgId⟩)
    ∧ ((processEmailSending cfg (some content) userEmail reason true false msgId).result
          = .error "sendMail failed"
      ∧ (processEmailSending cfg (some content) userEmail reason true false msgId).logWritten
          = none
      ∧ (processEmailSending cfg (some content) userEmail reason true false msgId).logBackedUp
          = false)
    ∧ clearTrackingFile = "[]" := by
  have hread := readTrackingData_parse hparse
  have hlz : jsLenZero (Json.arr td) = false := by
    cases td with
    | nil => exact absurd rfl hne
    | cons a l => rfl
  refine ⟨⟨?_, ?_, ?_⟩, ⟨?_, ?_, ?_⟩, rfl⟩ <;>
    simp [processEmailSending, hu, hp, hr, hread, hlz, hcnt]

/-- Claim C5, counterexample: with corrupt log content, dispatch does
mutate the log file — the read it performs runs corruption recovery,
which rewrites the file (here to the empty array). -/
theorem c5_counterexample :
    (processEmailSending fullCfg (some "not json") "u" "r" true true "m").logWritten
      = some "[]"
    ∧ (processEmailSending fullCfg (some "not json") "u" "r" true true "m").logWritten
      ≠ none := by
  refine ⟨rfl, ?_⟩
  have h : (processEmailSending fullCfg (some "not json") "u" "r" true true "m").logWritten
      = some "[]" := rfl
  rw [h]
  simp

theorem c5_witness :
    ((processEmailSending fullCfg (some "[1]") "ue" "re" true true "mid").logWritten = none
      ∧ (processEmailSending fullCfg (some "[1]") "ue" "re" true true "mid").logBackedUp = true
      ∧ (processEmailSending fullCfg (some "[1]") "ue" "re" true true "mid").result
          = .ok ⟨true, none, some [Json.num "1"].length, some "mid"⟩)
    ∧ ((processEmailSending fullCfg (some "[1]") "ue" "re" true false "mid").result
          = .error "sendMail failed"
      ∧ (processEmailSending fullCfg (some "[1]") "ue" "re" true false "mid").logWritten = none
      ∧ (processEmailSending fullCfg (some "[1]") "ue" "re" true false "mid").logBackedUp
          = false)
    ∧ clearTrackingFile = "[]" :=
  c5_theorem fullCfg "[1]" [Json.num "1"] [("undefined", 1)] "ue" "re" "mid"
    rfl rfl rfl rfl (by simp) rfl

/-- Claim C6 (amended): on an empty log, dispatch returns a success
result that carries an explanatory message but no record-count field,
and invokes the mail collaborator zero times. -/
theorem c6_theorem (cfg : EmailConfig) (content userEmail reason msgId : String)
    (verifyOk sendOk : Bool)
    (hu : presentStr cfg.user = true) (hp : presentStr cfg.pass = true)
    (hr : presentStr cfg.recipient = true)
    (hparse : parseJson content = some (Json.arr [])) :
    processEmailSending cfg (some content) userEmail reason verifyOk sendOk msgId
      = ⟨.ok ⟨true, some "No tracking data to send", none, none⟩, 0, 0, false, none, none⟩ := by
  have hread := readTrackingData_parse hparse
  simp [processEmailSending, hu, hp, hr, hread, jsLenZero]

/-- Claim C6, counterexample: the empty-log success result has no
record-count field at all (its `eventsCount` is absent, not zero). -/
theorem c6_counterexample :
    (processEmailSending fullCfg (some "[]") "u" "r" true true "m").result
      = Except.ok ⟨true, some "No tracking data to send", none, none⟩
    ∧ (processEmailSending fullCfg (some "[]") "u" "r" true true "m").sendCalls = 0
    ∧ (⟨true, some "No tracking data to send", none, none⟩ : JsResult).eventsCount
      ≠ some 0 := by
  refine ⟨rfl, rfl, ?_⟩
  simp

theorem c6_witness :
    processEmailSending fullCfg (some "[]") "ue" "re" true true "mid"
      = ⟨.ok ⟨true, some "No tracking data to send", none, none⟩, 0, 0, false, none, none⟩ :=
  c6_theorem fullCfg "[]" "ue" "re" "mid" true true rfl rfl rfl rfl

/-- Claim C7: with any mail credential absent, dispatch returns
immediately with a non-exception configuration-error result — no read,
no transporter verification, no send, no backup, no retry. -/
theorem c7_theorem (cfg : EmailConfig) (file : Option String)
    (userEmail reason msgId : String) (verifyOk sendOk : Bool)
    (h : presentStr cfg.user = false ∨ presentStr cfg.pass = false
        ∨ presentStr cfg.recipient = false) :
    processEmailSending cfg file userEmail reason verifyOk sendOk msgId
      = ⟨.ok ⟨false, some "Email configuration is incomplete. Check server logs for details.",
          none, none⟩, 0, 0, false, none, none⟩ := by
  rcases h with h | h | h <;> simp [processEmailSending, h]

theorem c7_witness :
    processEmailSending ⟨none, some "secret", some "ops@example.com"⟩ (some "[1]")
        "ue" "re" true true "mid"
      = ⟨.ok ⟨false, some "Email configuration is incomplete. Check server logs for details.",
          none, none⟩, 0, 0, false, none, none⟩ :=
  c7_theorem ⟨none, some "secret", some "ops@example.com"⟩ (some "[1]") "ue" "re" "mid"
    true true (Or.inl rfl)

/-! ## Claim C1: queue invariants, a lost update, sequential drain -/

namespace WriteQueue

lemma inv_init (records : List Json) : Inv (initSys records) := by
  refine ⟨?_, ?_, ?_⟩ <;> simp [initSys, Inv]

lemma inv_step {a : Act} {s s2 : TrackSys} (hI : Inv s) (h : applyAct a s = some s2) :
    Inv s2 := by
  obtain ⟨h1, h2, h3⟩ := hI
  cases a with
  | read i =>
    simp only [applyAct] at h
    cases ht : s.tasks i with
    | none => simp only [ht] at h; cases h
    | some t =>
      simp only [ht] at h
      by_cases hg : (t.snap.isNone && !t.enqueued) = true
      · rw [if_pos hg] at h
        cases h
        exact ⟨h1, h2, h3⟩
      · rw [if_neg hg] at h
        cases h
  | enq i =>
    simp only [applyAct] at h
    cases ht : s.tasks i with
    | none => simp only [ht] at h; cases h
    | some t =>
      simp only [ht] at h
      cases hsn : t.snap with
      | none => simp only [hsn] at h; cases h
      | some snap =>
        simp only [hsn] at h
        by_cases hg : (!t.enqueued) = true
        · rw [if_pos hg] at h
          cases h
          refine ⟨h1, h2, ?_⟩
          simp only [List.map_append, List.map_cons, List.map_nil, List.range_succ]
          rw [← h3]
          simp [List.append_assoc]
        · rw [if_neg hg] at h
          cases h
  | wstart =>
    simp only [applyAct] at h
    by_cases hw : s.q.isWriting = true
    · rw [if_pos hw] at h
      cases h
    · rw [if_neg hw] at h
      have hw' : s.q.isWriting = false := by
        revert hw; cases s.q.isWriting <;> simp
      have hifl : s.q.inFlight = [] := h1.mp hw'
      cases hpend : s.q.pending with
      | nil => rw [hpend] at h; cases h
      | cons w rest =>
        rw [hpend] at h
        cases h
        refine ⟨by simp [hifl], by simp [hifl], ?_⟩
        rw [← h3, hpend]
        simp [hifl, List.append_assoc]
  | wend =>
    simp only [applyAct] at h
    cases hifl : s.q.inFlight with
    | nil => rw [hifl] at h; cases h
    | cons w rest =>
      obtain ⟨wid, contents⟩ := w
      rw [hifl] at h
      cases h
      have hrest : rest = [] := by
        rw [hifl] at h2
        simp only [List.length_cons] at h2
        exact List.eq_nil_of_length_eq_zero (by omega)
      subst hrest
      refine ⟨by simp, by simp, ?_⟩
      rw [← h3, hifl]
      simp [List.append_assoc]

lemma inv_run {acts : List Act} {s s2 : TrackSys} (hI : Inv s) (h : run acts s = some s2) :
    Inv s2 := by
  induction acts generalizing s with
  | nil =>
    simp only [run] at h
    cases h
    exact hI
  | cons a rest ih =>
    simp only [run] at h
    cases happ : applyAct a s with
    | none => rw [happ] at h; cases h
    | some s1 =>
      rw [happ] at h
      exact ih (inv_step hI happ) h

/-- In any reachable state, the completed enqueue numbers are exactly
the first ones, in order: writes complete in the order enqueued. -/
lemma completed_fifo {s : TrackSys} (hI : Inv s) :
    s.q.completed = List.range s.q.completed.length := by
  obtain ⟨-, -, h3⟩ := hI
  have hpre : s.q.completed ++ (s.q.inFlight.map Prod.fst ++ s.q.pending.map Prod.fst)
      = List.range s.q.nextId := by
    rw [← List.append_assoc, h3]
  have hlen : s.q.completed.length ≤ s.q.nextId := by
    have hcg := congrArg List.length hpre
    simp only [List.length_append, List.length_range] at hcg
    omega
  conv_lhs => rw [← List.take_left s.q.completed
    (s.q.inFlight.map Prod.fst ++ s.q.pending.map Prod.fst), hpre]
  rw [List.take_range, Nat.min_eq_left hlen]

lemma run_append (as bs : List Act) (s : TrackSys) :
    run (as ++ bs) s = (run as s).bind (run bs) := by
  induction as generalizing s with
  | nil => simp [run]
  | cons a rest ih =>
    simp only [List.cons_append, run]
    cases applyAct a s with
    | none => simp
    | some s1 => simp [ih]

lemma seq_drain (rest : List Json) :
    ∀ (k : Nat) (s : TrackSys),
      s.q.pending = [] → s.q.inFlight = [] → s.q.isWriting = false →
      (∀ i, k ≤ i →
        s.tasks i = (rest.get? (i - k)).map (fun r => (⟨r, none, false⟩ : AppendTask))) →
      ∃ s2, run (seqActsFrom k rest.length) s = some s2
        ∧ s2.q.file = s.q.file ++ rest ∧ s2.q.pending = [] ∧ s2.q.inFlight = []
        ∧ s2.q.isWriting = false := by
  induction rest with
  | nil =>
    intro k s hp hf hw _
    exact ⟨s, rfl, by simp, hp, hf, hw⟩
  | cons r rs ih =>
    intro k s hp hf hw htasks
    have htk : s.tasks k = some ⟨r, none, false⟩ := by
      have h0 := htasks k (Nat.le_refl k)
      simpa using h0
    have hblock : run (seqBlock k) s = some
        ⟨⟨s.q.file ++ [r], [], [], false, s.q.nextId + 1, s.q.completed ++ [s.q.nextId]⟩,
          Function.update s.tasks k (some ⟨r, some s.q.file, true⟩)⟩ := by
      simp [seqBlock, run, applyAct, htk, hp, hf, hw, Function.update_idem]
    have hsplit : seqActsFrom k (r :: rs).length
        = seqBlock k ++ seqActsFrom (k + 1) rs.length := rfl
    rw [hsplit, run_append, hblock]
    have htasks2 : ∀ i, k + 1 ≤ i →
        (Function.update s.tasks k (some (⟨r, some s.q.file, true⟩ : AppendTask))) i
          = (rs.get? (i - (k + 1))).map (fun r => (⟨r, none, false⟩ : AppendTask)) := by
      intro i hi
      have hne : i ≠ k := by omega
      rw [Function.update_noteq hne, htasks i (by omega)]
      have hidx : i - k = (i - (k + 1)) + 1 := by omega
      rw [hidx]
      rfl
    obtain ⟨s5, hrun5, hfile5, hp5, hf5, hw5⟩ :=
      ih (k + 1)
        ⟨⟨s.q.file ++ [r], [], [], false, s.q.nextId + 1, s.q.completed ++ [s.q.nextId]⟩,
          Function.update s.tasks k (some ⟨r, some s.q.file, true⟩)⟩
        rfl rfl rfl htasks2
    refine ⟨s5, ?_, ?_, hp5, hf5, hw5⟩
    · simpa using hrun5
    · rw [hfile5]
      simp

end WriteQueue

open WriteQueue in
/-- Claim C1 (amended): the queue admits at most one in-flight physical
write at any reachable state and completes writes in enqueue order; but
appends issued concurrently can lose updates (their reads are not
serialised), so `read()` after settling is guaranteed to return exactly
the N appended records, each with its payload and in order, only when
the appends run sequentially — each read after the previous write
settles. -/
theorem c1_theorem :
    (∀ (records : List Json) (acts : List Act) (s : TrackSys),
        run acts (initSys records) = some s →
        s.q.inFlight.length ≤ 1 ∧ s.q.completed = List.range s.q.completed.length)
    ∧ (∀ records : List Json, ∃ s,
        run (seqActs records.length) (initSys records) = some s ∧ s.q.file = records) := by
  constructor
  · intro records acts s h
    have hI := inv_run (inv_init records) h
    exact ⟨hI.2.1, completed_fifo hI⟩
  · intro records
    have htasks : ∀ i, 0 ≤ i → (initSys records).tasks i
        = (records.get? (i - 0)).map (fun r => (⟨r, none, false⟩ : AppendTask)) := by
      intro i _
      simp [initSys]
    obtain ⟨s2, hrun, hfile, -, -, -⟩ :=
      seq_drain records 0 (initSys records) rfl rfl rfl htasks
    exact ⟨s2, hrun, by simpa [initSys] using hfile⟩

open WriteQueue in
/-- Claim C1, counterexample: two appends issued concurrently (both
reads before either write settles) end, after the queue fully drains,
with a single record in the log — the first payload is lost — although
both writes were enqueued and completed in FIFO order. -/
theorem c1_counterexample :
    (run [Act.read 0, Act.read 1, Act.enq 0, Act.enq 1, Act.wstart, Act.wend,
        Act.wstart, Act.wend]
      (initSys [Json.str "p0", Json.str "p1"])).map
        (fun s => (s.q.file, s.q.pending, s.q.inFlight))
      = some ([Json.str "p1"], [], [])
    ∧ [Json.str "p1"].length ≠ [Json.str "p0", Json.str "p1"].length := by
  constructor
  · rfl
  · simp

open WriteQueue in
theorem c1_witness :
    ((initSys [Json.str "p"]).q.inFlight.length ≤ 1
      ∧ (initSys [Json.str "p"]).q.completed
          = List.range (initSys [Json.str "p"]).q.completed.length)
    ∧ ∃ s, run (seqActs [Json.str "p"].length) (initSys [Json.str "p"]) = some s
        ∧ s.q.file = [Json.str "p"] :=
  ⟨c1_theorem.1 [Json.str "p"] [] (initSys [Json.str "p"]) rfl,
    c1_theorem.2 [Json.str "p"]⟩
